import Mathlib

/-!
Verification of the `yadon` crate (`src/lib.rs`): a recorder of write/seek
operations that simulates the cursor position and byte counts a real target
would report, and later replays the log against a real target, optionally
validating the real results against the simulated ones.

The embedding mirrors the Rust source:
  * `u64` positions are `Nat`; deltas (`i64`) are `Int`.
  * The Rust cast `x as u64` of an `i64` value is `toU64` (two's-complement
    wraparound, `Int.emod` by `2 ^ 64`); `s as i64` of a `u64` is `toI64`.
    These casts are defined (wrapping) in Rust in every build mode. Signed
    additions are modelled as exact `Int` addition, which agrees with Rust
    whenever the intermediate fits in `i64` (positions below `2 ^ 63`).
  * The unsigned subtraction `max_length - current_position` in `write`
    panics on underflow under Rust's overflow checks; `Yadon.write` returns
    `none` in exactly that case, and `some (count, self)` otherwise.
  * `Yadon.seek` returns the `Err(ErrorKind::Unsupported)` case as `none`
    in the first component; the second component is the updated recorder
    (the Rust method mutates `self.virtual_position` even on that failure).
  * `Yadon.apply` takes the target as an explicit state machine `Target σ`
    whose operations may fail (`none` models an underlying I/O error). The
    recorder is threaded through and returned, so that the frame property
    of the Rust `&self` receiver is an explicit theorem.
-/

/-- Seek modes, mirroring `std::io::SeekFrom`: `Start` (absolute offset),
`Current` (signed delta from the current position), `End` (signed delta from
the end; constructor named `fromEnd` because `end` is reserved). -/
inductive SeekFrom where
  | start (offset : Nat)
  | current (delta : Int)
  | fromEnd (delta : Int)
deriving DecidableEq, Repr

/-- Logged operations, mirroring `enum WriteOperation`: a write with the
(possibly clamped) payload and the byte count reported for it, or a seek with
the requested mode and the resolved simulated position. -/
inductive WriteOperation where
  | write (data : List Nat) (count : Nat)
  | seek (pos : SeekFrom) (resolved : Nat)
deriving DecidableEq, Repr

/-- The recorder, mirroring `struct Yadon`. -/
structure Yadon where
  operations : List WriteOperation
  virtual_position : Option Nat
  start : Option Nat
  length : Option Nat
deriving DecidableEq, Repr

/-- Mirrors `Yadon::new`. -/
def Yadon.new (start length : Option Nat) : Yadon :=
  { operations := [], virtual_position := none, start := start, length := length }

/-- Rust `s as i64` for a `u64` value: two's-complement reinterpretation. -/
def toI64 (n : Nat) : Int :=
  if n % 2 ^ 64 < 2 ^ 63 then ((n % 2 ^ 64 : Nat) : Int)
  else ((n % 2 ^ 64 : Nat) : Int) - 2 ^ 64

/-- Rust `v as u64` for an `i64` value: two's-complement wraparound into
`[0, 2^64)`. -/
def toU64 (v : Int) : Nat :=
  (v % (2 ^ 64 : Int)).toNat

/-- Mirrors `<Yadon as Write>::write`. Returns `none` exactly when the Rust
code underflows in `max_length - current_position` (a panic under overflow
checks), and otherwise `some (reported_count, updated_recorder)`. -/
def Yadon.write (self : Yadon) (buf : List Nat) : Option (Nat × Yadon) :=
  let self1 :=
    match self.virtual_position, self.start, self.length with
    | none, some start, some _ => { self with virtual_position := some start }
    | _, _, _ => self
  let clamped : Option (List Nat) :=
    match self1.length with
    | some max_length =>
      match self1.virtual_position with
      | some current_position =>
        if max_length < current_position then none
        else
          let available_space := max_length - current_position
          some (if available_space < buf.length then buf.take available_space else buf)
      | none =>
        let available_space := max_length
        some (if available_space < buf.length then buf.take available_space else buf)
    | none => some buf
  match clamped with
  | none => none
  | some buf2 =>
    let vp : Option Nat :=
      match self1.virtual_position with
      | some current_position => some (current_position + buf2.length)
      | none => some buf2.length
    some (buf2.length,
      { self1 with
          virtual_position := vp,
          operations := self1.operations ++ [WriteOperation.write buf2 buf2.length] })

/-- Mirrors `<Yadon as Seek>::seek`. The first component is `some position`
on success and `none` for the `Err(ErrorKind::Unsupported)` return; the
second component is the updated recorder (updated even on failure, since the
Rust code sets `self.virtual_position = None` before returning the error). -/
def Yadon.seek (self : Yadon) (pos : SeekFrom) : Option Nat × Yadon :=
  let vp : Option Nat :=
    match self.virtual_position, pos, self.start, self.length with
    | _, SeekFrom.start from_start, _, _ => some from_start
    | none, SeekFrom.current from_current, some start_position, _ =>
        some (toU64 (toI64 start_position + from_current))
    | _, SeekFrom.fromEnd from_end, _, some length =>
        some (toU64 (toI64 length + from_end))
    | some current_pos, SeekFrom.current from_current, _, _ =>
        some (toU64 (toI64 current_pos + from_current))
    | _, SeekFrom.fromEnd _, _, none => none
    | none, SeekFrom.current from_current, none, _ => some (toU64 from_current)
  match vp with
  | some resulting_position =>
      (some resulting_position,
       { self with
           virtual_position := some resulting_position,
           operations := self.operations ++ [WriteOperation.seek pos resulting_position] })
  | none => (none, { self with virtual_position := none })

/-- Errors of `apply`, mirroring `enum ApplyError`; the two divergence
variants carry the `Confusion` fields `expected` and `actual`. The payload of
the `Io` variant (the underlying error) is dropped. -/
inductive ApplyError where
  | ioFailure
  | seekDiverged (expected actual : Nat)
  | numBytesWrittenDiverge (expected actual : Nat)
deriving DecidableEq, Repr

/-- An abstract replay target: the `Write + Seek` collaborator of `apply`.
Each operation may fail (`none`), modelling an underlying I/O error. -/
structure Target (σ : Type) where
  write : σ → List Nat → Option (Nat × σ)
  seek : σ → SeekFrom → Option (Nat × σ)
  flush : σ → Option σ

/-- The replay loop of `Yadon::apply` over the stored operations, threading
the (unmodified) recorder so the frame property is statable. -/
def Yadon.applyGo {σ : Type} (self : Yadon) (tg : Target σ) (check : Bool) :
    List WriteOperation → σ → Nat → Except ApplyError (Nat × σ) × Yadon
  | [], s, total =>
    match tg.flush s with
    | some s2 => (Except.ok (total, s2), self)
    | none => (Except.error ApplyError.ioFailure, self)
  | WriteOperation.write data expected_bytes_written :: rest, s, total =>
    match tg.write s data with
    | none => (Except.error ApplyError.ioFailure, self)
    | some (bytes_written, s2) =>
      if check = true ∧ expected_bytes_written ≠ bytes_written then
        (Except.error (ApplyError.numBytesWrittenDiverge expected_bytes_written bytes_written),
         self)
      else Yadon.applyGo self tg check rest s2 (total + bytes_written)
  | WriteOperation.seek pos expected_position :: rest, s, total =>
    match tg.seek s pos with
    | none => (Except.error ApplyError.ioFailure, self)
    | some (new_position, s2) =>
      if check = true ∧ new_position ≠ expected_position then
        (Except.error (ApplyError.seekDiverged expected_position new_position), self)
      else Yadon.applyGo self tg check rest s2 total

/-- Mirrors `Yadon::apply`: seek the target to `start` if configured
(validating the result when `check` is set), replay every logged operation in
order, flush, and return the total number of bytes written. The recorder is
returned unchanged in the second component (`&self` in Rust). -/
def Yadon.apply {σ : Type} (self : Yadon) (tg : Target σ) (s : σ) (check : Bool) :
    Except ApplyError (Nat × σ) × Yadon :=
  match self.start with
  | some start =>
    match tg.seek s (SeekFrom.start start) with
    | none => (Except.error ApplyError.ioFailure, self)
    | some (seek_pos, s2) =>
      if check = true ∧ seek_pos ≠ start then
        (Except.error (ApplyError.seekDiverged start seek_pos), self)
      else Yadon.applyGo self tg check self.operations s2 0
  | none => Yadon.applyGo self tg check self.operations s 0

/-- Script entries for driving the recorder through a sequence of calls, as
the crate's tests do. -/
inductive RecOp where
  | wr (buf : List Nat)
  | sk (pos : SeekFrom)
deriving DecidableEq, Repr

/-- Runs a script of write/seek calls on the recorder, collecting the value
each call returns; `none` if any call fails (seek error or write panic). -/
def recordAll (y : Yadon) : List RecOp → Option (List Nat × Yadon)
  | [] => some ([], y)
  | RecOp.wr buf :: rest =>
    match y.write buf with
    | none => none
    | some (n, y2) => (recordAll y2 rest).map (fun p => (n :: p.1, p.2))
  | RecOp.sk pos :: rest =>
    match y.seek pos with
    | (none, _) => none
    | (some r, y2) => (recordAll y2 rest).map (fun p => (r :: p.1, p.2))

/-- A concrete replay target modelling `std::io::Cursor` over a byte vector
(as used in the crate's tests): a position plus the underlying bytes. -/
structure Cursor where
  pos : Nat
  data : List Nat
deriving DecidableEq, Repr

/-- Overwrites `data` starting at `pos` with `buf`, zero-padding and growing
the vector as `Cursor<&mut Vec<u8>>` does. -/
def Cursor.writeAt (data : List Nat) (pos : Nat) (buf : List Nat) : List Nat :=
  let padded := data ++ List.replicate (pos - data.length) 0
  padded.take pos ++ buf ++ padded.drop (pos + buf.length)

/-- The `Target` interface of a `Cursor`: writes always succeed and report
the full buffer; seeks fail only on a resulting negative position. -/
def cursorTarget : Target Cursor where
  write := fun c buf =>
    some (buf.length, { pos := c.pos + buf.length, data := Cursor.writeAt c.data c.pos buf })
  seek := fun c p =>
    match p with
    | SeekFrom.start n => some (n, { c with pos := n })
    | SeekFrom.current d =>
      let q : Int := (c.pos : Int) + d
      if 0 ≤ q then some (q.toNat, { c with pos := q.toNat }) else none
    | SeekFrom.fromEnd d =>
      let q : Int := (c.data.length : Int) + d
      if 0 ≤ q then some (q.toNat, { c with pos := q.toNat }) else none
  flush := fun c => some c

/-- The recording script of the `delayed_write` test (the C1 scenario). -/
def c1Script : List RecOp :=
  [RecOp.sk (SeekFrom.start 4), RecOp.wr [1, 2, 3], RecOp.sk (SeekFrom.fromEnd (-2)),
   RecOp.wr [4, 5], RecOp.sk (SeekFrom.current (-6)), RecOp.wr [6, 7, 8]]

/-- The recorder state after running `c1Script` from `Yadon.new 0 16`. -/
def c1Yadon : Yadon :=
  { operations :=
      [WriteOperation.seek (SeekFrom.start 4) 4,
       WriteOperation.write [1, 2, 3] 3,
       WriteOperation.seek (SeekFrom.fromEnd (-2)) 14,
       WriteOperation.write [4, 5] 2,
       WriteOperation.seek (SeekFrom.current (-6)) 10,
       WriteOperation.write [6, 7, 8] 3],
    virtual_position := some 13,
    start := some 0,
    length := some 16 }

/-- Tests whether an `apply` outcome is one of the two divergence errors
(`SeekDiverged` or `NumBytesWrittenDiverge`), as opposed to success or an
underlying I/O failure. -/
def resultDiverged {α : Type} : Except ApplyError α → Bool
  | Except.error (ApplyError.seekDiverged _ _) => true
  | Except.error (ApplyError.numBytesWrittenDiverge _ _) => true
  | _ => false

/-- Tests whether an `apply` outcome is a success. -/
def resultOk {α : Type} : Except ApplyError α → Bool
  | Except.ok _ => true
  | Except.error _ => false

/-- A target on which every underlying write, seek and flush succeeds. -/
def Target.Total {σ : Type} (tg : Target σ) : Prop :=
  (∀ s buf, (tg.write s buf).isSome = true) ∧
  (∀ s p, (tg.seek s p).isSome = true) ∧
  (∀ s, (tg.flush s).isSome = true)

/-- A trivial stateless target that accepts everything (used as a concrete
total target). -/
def unitTarget : Target Unit where
  write := fun s buf => some (buf.length, s)
  seek := fun s _ => some (0, s)
  flush := fun s => some s

/-- The `effective_current` position `write` clamps against: the virtual
position if known, else the configured `start`, else `0`. This mirrors the
two code paths in `<Yadon as Write>::write` (the `virtual_position`
initialization from `start`, and the `available_space` match). -/
def effectiveCurrent (y : Yadon) : Nat :=
  match y.virtual_position with
  | some v => v
  | none =>
    match y.start with
    | some s => s
    | none => 0

/-- Checks that every logged write records a byte count equal to the length
of its logged payload. -/
def goodLogB (ops : List WriteOperation) : Bool :=
  ops.all fun op =>
    match op with
    | WriteOperation.write d n => n = d.length
    | WriteOperation.seek _ _ => true

/-- Recorder states reachable through the public API: a fresh `Yadon::new`
followed by any sequence of `write` and `seek` calls (successful or not). -/
inductive Reachable : Yadon → Prop where
  | new (s l : Option Nat) : Reachable (Yadon.new s l)
  | wr {y : Yadon} {buf : List Nat} {n : Nat} {y2 : Yadon} :
      Reachable y → y.write buf = some (n, y2) → Reachable y2
  | sk {y : Yadon} {pos : SeekFrom} {y2 : Yadon} :
      Reachable y → (y.seek pos).2 = y2 → Reachable y2

/-- C1: for a `Yadon` constructed with `start = 0` and `length = 16`, the
recorded sequence seek `Start 4`, write `[1,2,3]`, seek `End (-2)`, write
`[4,5]`, seek `Current (-6)`, write `[6,7,8]` returns the simulated results
`4, 3, 14, 2, 10, 3` in that order, and applying the log with validation to a
16-byte zero-filled target succeeds (writing 8 bytes in total) and leaves the
target's bytes equal to `[0,0,0,0,1,2,3,0,0,0,6,7,8,0,4,5]`. -/
theorem c1_delayed_write_scenario :
    recordAll (Yadon.new (some 0) (some 16)) c1Script = some ([4, 3, 14, 2, 10, 3], c1Yadon) ∧
    (c1Yadon.apply cursorTarget (Cursor.mk 0 (List.replicate 16 0)) true).1
      = Except.ok (8, Cursor.mk 13 [0, 0, 0, 0, 1, 2, 3, 0, 0, 0, 6, 7, 8, 0, 4, 5]) :=
  ⟨rfl, rfl⟩

/-- C2: the seek arithmetic does wrap around. With `start = 0` configured, no
`length`, and the current position unknown, `seek (Current (-1))` succeeds
and returns `18446744073709551615 = 2 ^ 64 - 1`, the two's-complement
wraparound of the mathematically negative position `0 + (-1)`, contradicting
the claim that positions are never reported as wrapped unsigned values. -/
theorem c2_wraparound_eval :
    ((Yadon.new (some 0) none).seek (SeekFrom.current (-1))).1
      = some 18446744073709551615 := by
  decide

/-- C3 counterexample: an `AbsoluteFrom` seek with offset greater than the
configured length sets the simulated position beyond the length: with
`length = 16`, `seek (Start 100)` leaves `virtual_position = some 100`. -/
theorem c3_counterexample :
    ((Yadon.new none (some 16)).seek (SeekFrom.start 100)).2.virtual_position = some 100 ∧
    ¬(100 ≤ 16) := by
  decide

/-- C4: `write` is not total. With `length = 4` and the virtual position
moved to 10 by a preceding seek, the capacity computation `4 - 10` underflows
(`none` models the Rust u64-subtraction overflow panic). -/
theorem c4_underflow_eval :
    (((Yadon.new none (some 4)).seek (SeekFrom.start 10)).2.write [1]) = none := by
  decide

/-- C6 counterexample: `RelativeToEnd` does not resolve to `length + delta`
when that sum is negative. With `length = 4`, `seek (End (-5))` succeeds and
returns `2 ^ 64 - 1`, not the mathematical value `4 + (-5) = -1`. -/
theorem c6_counterexample :
    ((Yadon.new none (some 4)).seek (SeekFrom.fromEnd (-5))).1
      = some 18446744073709551615 ∧
    ¬((18446744073709551615 : Int) = (4 : Int) + (-5)) := by
  decide

/-- C10: with `start` configured but no `length` and no seek yet recorded,
the first write of `buf` reports `buf.length` bytes and sets the simulated
position to `buf.length` — the configured `start` is not used to anchor the
virtual position when `length` is absent. -/
theorem c10_first_write_position (s : Nat) (buf : List Nat) :
    (Yadon.new (some s) none).write buf
      = some (buf.length,
          { operations := [WriteOperation.write buf buf.length],
            virtual_position := some buf.length,
            start := some s,
            length := none }) := by
  simp [Yadon.new, Yadon.write]

/-- C7: with no configured `length`, every `RelativeToEnd` seek fails
(`none`, the Rust `ErrorKind::Unsupported` return) and appends no entry to
the operation log, whatever the start and whatever happened before. -/
theorem c7_end_seek_unsupported (y : Yadon) (d : Int) (h : y.length = none) :
    (y.seek (SeekFrom.fromEnd d)).1 = none ∧
    (y.seek (SeekFrom.fromEnd d)).2.operations = y.operations := by
  obtain ⟨ops, vp, st, len⟩ := y
  cases len with
  | some l => simp at h
  | none => cases vp <;> cases st <;> simp [Yadon.seek]

/-- C7 witness: the recorder of the `cannot_seek_end_without_length` test
(`start = 3`, no length) rejects `seek (End (-2))` without logging it. -/
theorem c7_end_seek_unsupported_witness :
    ((Yadon.new (some 3) none).seek (SeekFrom.fromEnd (-2))).1 = none ∧
    ((Yadon.new (some 3) none).seek (SeekFrom.fromEnd (-2))).2.operations
      = (Yadon.new (some 3) none).operations :=
  c7_end_seek_unsupported (Yadon.new (some 3) none) (-2) rfl

/-- The replay loop returns the recorder it was given, unchanged. -/
theorem applyGo_frame {σ : Type} (y : Yadon) (tg : Target σ) (check : Bool)
    (ops : List WriteOperation) (s : σ) (total : Nat) :
    (Yadon.applyGo y tg check ops s total).2 = y := by
  induction ops generalizing s total with
  | nil =>
    simp only [Yadon.applyGo]
    cases tg.flush s <;> rfl
  | cons op rest ih =>
    cases op with
    | write data n =>
      simp only [Yadon.applyGo]
      cases tg.write s data with
      | none => rfl
      | some p =>
        obtain ⟨bw, s2⟩ := p
        dsimp only
        split
        · rfl
        · exact ih s2 (total + bw)
    | seek pos n =>
      simp only [Yadon.applyGo]
      cases tg.seek s pos with
      | none => rfl
      | some p =>
        obtain ⟨np, s2⟩ := p
        dsimp only
        split
        · rfl
        · exact ih s2 total

/-- C9: `apply` never mutates the recorder — the operation log,
`virtual_position`, `start` and `length` all come back unchanged — so a
second `apply` of the same recorder re-issues exactly the same operations. -/
theorem c9_apply_frame {σ : Type} (y : Yadon) (tg : Target σ) (s : σ) (check : Bool) :
    (y.apply tg s check).2 = y ∧
    ∀ (s2 : σ) (check2 : Bool),
      Yadon.apply ((y.apply tg s check).2) tg s2 check2 = y.apply tg s2 check2 := by
  have hframe : (y.apply tg s check).2 = y := by
    rcases hst : y.start with _ | st <;> simp only [Yadon.apply, hst]
    · exact applyGo_frame ..
    · rcases htg : tg.seek s (SeekFrom.start st) with _ | ⟨sp, s2⟩
      · rfl
      · dsimp only
        split
        · rfl
        · exact applyGo_frame ..
  exact ⟨hframe, fun s2 c2 => by rw [hframe]⟩

/-- With validation off, the replay loop never produces a divergence error. -/
theorem applyGo_false_no_div {σ : Type} (y : Yadon) (tg : Target σ)
    (ops : List WriteOperation) (s : σ) (total : Nat) :
    resultDiverged (Yadon.applyGo y tg false ops s total).1 = false := by
  induction ops generalizing s total with
  | nil =>
    simp only [Yadon.applyGo]
    cases tg.flush s <;> rfl
  | cons op rest ih =>
    cases op with
    | write data n =>
      simp only [Yadon.applyGo]
      cases tg.write s data with
      | none => rfl
      | some p =>
        obtain ⟨bw, s2⟩ := p
        dsimp only
        rw [if_neg (by simp)]
        exact ih s2 (total + bw)
    | seek pos n =>
      simp only [Yadon.applyGo]
      cases tg.seek s pos with
      | none => rfl
      | some p =>
        obtain ⟨np, s2⟩ := p
        dsimp only
        rw [if_neg (by simp)]
        exact ih s2 total

/-- On a target whose operations all succeed, the replay loop with validation
off succeeds. -/
theorem applyGo_false_total_ok {σ : Type} (y : Yadon) (tg : Target σ)
    (ht : Target.Total tg) (ops : List WriteOperation) (s : σ) (total : Nat) :
    resultOk (Yadon.applyGo y tg false ops s total).1 = true := by
  induction ops generalizing s total with
  | nil =>
    simp only [Yadon.applyGo]
    rcases hf : tg.flush s with _ | s2
    · exact absurd (ht.2.2 s) (by simp [hf])
    · rfl
  | cons op rest ih =>
    cases op with
    | write data n =>
      simp only [Yadon.applyGo]
      rcases hw : tg.write s data with _ | ⟨bw, s2⟩
      · exact absurd (ht.1 s data) (by simp [hw])
      · dsimp only
        rw [if_neg (by simp)]
        exact ih s2 (total + bw)
    | seek pos n =>
      simp only [Yadon.applyGo]
      rcases hk : tg.seek s pos with _ | ⟨np, s2⟩
      · exact absurd (ht.2.1 s pos) (by simp [hk])
      · dsimp only
        rw [if_neg (by simp)]
        exact ih s2 total

/-- C8: `apply` with validation off never returns a seek-divergence or
write-count-divergence error, and on a target whose underlying writes, seeks
and flushes all succeed it succeeds outright, whatever was recorded. -/
theorem c8_unvalidated_apply {σ : Type} (y : Yadon) (tg : Target σ) (s : σ) :
    resultDiverged (y.apply tg s false).1 = false ∧
    (Target.Total tg → resultOk (y.apply tg s false).1 = true) := by
  constructor
  · rcases hst : y.start with _ | st <;> simp only [Yadon.apply, hst]
    · exact applyGo_false_no_div ..
    · rcases htg : tg.seek s (SeekFrom.start st) with _ | ⟨sp, s2⟩
      · rfl
      · dsimp only
        rw [if_neg (by simp)]
        exact applyGo_false_no_div ..
  · intro ht
    rcases hst : y.start with _ | st <;> simp only [Yadon.apply, hst]
    · exact applyGo_false_total_ok y tg ht ..
    · rcases htg : tg.seek s (SeekFrom.start st) with _ | ⟨sp, s2⟩
      · exact absurd (ht.2.1 s (SeekFrom.start st)) (by simp [htg])
      · dsimp only
        rw [if_neg (by simp)]
        exact applyGo_false_total_ok y tg ht ..

/-- C8 witness: a recorder holding one write and one seek, replayed without
validation against the always-succeeding `unitTarget` (whose real results
differ from the recorded ones), diverges nowhere and succeeds. -/
theorem c8_unvalidated_apply_witness :
    resultDiverged ((Yadon.mk [WriteOperation.write [1, 2] 2,
        WriteOperation.seek (SeekFrom.start 9) 9] (some 9) (some 1) none).apply
        unitTarget () false).1 = false ∧
    resultOk ((Yadon.mk [WriteOperation.write [1, 2] 2,
        WriteOperation.seek (SeekFrom.start 9) 9] (some 9) (some 1) none).apply
        unitTarget () false).1 = true :=
  ⟨(c8_unvalidated_apply (Yadon.mk [WriteOperation.write [1, 2] 2,
        WriteOperation.seek (SeekFrom.start 9) 9] (some 9) (some 1) none) unitTarget ()).1,
   (c8_unvalidated_apply (Yadon.mk [WriteOperation.write [1, 2] 2,
        WriteOperation.seek (SeekFrom.start 9) 9] (some 9) (some 1) none) unitTarget ()).2
     ⟨fun _ _ => rfl, fun _ _ => rfl, fun _ => rfl⟩⟩

/-- A successful `write` appends exactly one logged write whose recorded
count is the length of its payload. -/
theorem write_shape (ops : List WriteOperation) (vp st len : Option Nat)
    (buf : List Nat) (n : Nat) (y2 : Yadon)
    (hw : (Yadon.mk ops vp st len).write buf = some (n, y2)) :
    ∃ b : List Nat, y2.operations = ops ++ [WriteOperation.write b b.length] := by
  cases vp <;> cases st <;> cases len <;> simp only [Yadon.write] at hw <;>
    (try split at hw) <;>
    first
    | exact Option.noConfusion hw
    | (simp only [Option.some.injEq, Prod.mk.injEq] at hw
       obtain ⟨hn, hy⟩ := hw
       exact ⟨_, by rw [← hy]⟩)

/-- Appending a length-consistent logged write preserves `goodLogB`. -/
theorem goodLogB_append_write (ops : List WriteOperation) (b : List Nat)
    (h : goodLogB ops = true) :
    goodLogB (ops ++ [WriteOperation.write b b.length]) = true := by
  simp [goodLogB, List.all_append] at h ⊢
  exact h

/-- Appending a logged seek preserves `goodLogB`. -/
theorem goodLogB_append_seek (ops : List WriteOperation) (p : SeekFrom) (r : Nat)
    (h : goodLogB ops = true) :
    goodLogB (ops ++ [WriteOperation.seek p r]) = true := by
  simp [goodLogB, List.all_append] at h ⊢
  exact h

/-- A `seek` leaves a `goodLogB` log good: it appends at most one logged
seek. -/
theorem seek_goodLog {y : Yadon} (pos : SeekFrom)
    (h : goodLogB y.operations = true) :
    goodLogB (y.seek pos).2.operations = true := by
  simp only [Yadon.seek]
  split
  · exact goodLogB_append_seek y.operations pos _ h
  · exact h

/-- Every reachable recorder state has a length-consistent log: each logged
write's recorded byte count equals the length of its logged payload. -/
theorem reachable_goodLog (y : Yadon) (hr : Reachable y) :
    goodLogB y.operations = true := by
  induction hr with
  | new s l => rfl
  | @wr y1 buf n y2 hr1 hw ih =>
    obtain ⟨ops, vp, st, len⟩ := y1
    obtain ⟨b, hb⟩ := write_shape ops vp st len buf n y2 hw
    rw [hb]
    exact goodLogB_append_write ops b ih
  | @sk y1 pos y2 hr1 hs ih =>
    rw [← hs]
    exact seek_goodLog pos ih

/-- C5: on every reachable recorder, the recorded byte counts always equal
the logged payload lengths, and a write of `buf` when the available capacity
`L - effectiveCurrent` is well-defined and smaller than `buf.length` reports
exactly that capacity, logging a payload of exactly that length. -/
theorem c5_clamp_and_log (y : Yadon) (hr : Reachable y) (L : Nat) (buf : List Nat)
    (hL : y.length = some L) (he : effectiveCurrent y ≤ L)
    (hc : L - effectiveCurrent y < buf.length) :
    goodLogB y.operations = true ∧
    ∃ y2, y.write buf = some (L - effectiveCurrent y, y2) ∧
      y2.operations = y.operations ++
        [WriteOperation.write (buf.take (L - effectiveCurrent y)) (L - effectiveCurrent y)] ∧
      goodLogB y2.operations = true := by
  have hg : goodLogB y.operations = true := reachable_goodLog y hr
  refine ⟨hg, ?_⟩
  obtain ⟨ops, vp, st, len⟩ := y
  dsimp only at hL hg
  subst hL
  cases vp with
  | some v =>
    simp only [effectiveCurrent] at he hc ⊢
    have hlen : (buf.take (L - v)).length = L - v := by
      simp [List.length_take]
      omega
    have hgl := goodLogB_append_write ops (buf.take (L - v)) hg
    rw [hlen] at hgl
    simp only [Yadon.write]
    rw [if_neg (by omega : ¬ L < v), if_pos hc]
    dsimp only
    rw [hlen]
    exact ⟨_, rfl, rfl, hgl⟩
  | none =>
    cases st with
    | some s =>
      simp only [effectiveCurrent] at he hc ⊢
      have hlen : (buf.take (L - s)).length = L - s := by
        simp [List.length_take]
        omega
      have hgl := goodLogB_append_write ops (buf.take (L - s)) hg
      rw [hlen] at hgl
      simp only [Yadon.write]
      rw [if_neg (by omega : ¬ L < s), if_pos hc]
      dsimp only
      rw [hlen]
      exact ⟨_, rfl, rfl, hgl⟩
    | none =>
      simp only [effectiveCurrent, Nat.sub_zero] at he hc ⊢
      have hlen : (buf.take L).length = L := by
        simp [List.length_take]
        omega
      have hgl := goodLogB_append_write ops (buf.take L) hg
      rw [hlen] at hgl
      simp only [Yadon.write]
      rw [if_pos hc, hlen]
      exact ⟨_, rfl, rfl, hgl⟩

/-- C5 witness: the `apply_smaller_than_target` test's recorder
(`start = 1`, `length = 4`) clamps a 6-byte write to capacity 3 and logs a
3-byte payload with count 3. -/
theorem c5_clamp_and_log_witness :
    goodLogB (Yadon.new (some 1) (some 4)).operations = true ∧
    ∃ y2, (Yadon.new (some 1) (some 4)).write [0, 0, 0, 0, 0, 0]
        = some (4 - effectiveCurrent (Yadon.new (some 1) (some 4)), y2) ∧
      y2.operations = (Yadon.new (some 1) (some 4)).operations ++
        [WriteOperation.write
          ([0, 0, 0, 0, 0, 0].take (4 - effectiveCurrent (Yadon.new (some 1) (some 4))))
          (4 - effectiveCurrent (Yadon.new (some 1) (some 4)))] ∧
      goodLogB y2.operations = true :=
  c5_clamp_and_log (Yadon.new (some 1) (some 4)) (Reachable.new (some 1) (some 4))
    4 [0, 0, 0, 0, 0, 0] rfl (by decide) (by decide)

/-- C3 (amended): `write` preserves the bound `virtual_position ≤ length`.
If `length = L` is configured and the pre-state is within bounds (a known
position is at most `L`; with an unknown position, a configured `start` is at
most `L`), the write succeeds and the new simulated position is at most `L`.
(Seeks do not preserve this bound — see the counterexample.) -/
theorem c3_write_preserves_bound (y : Yadon) (L : Nat) (buf : List Nat)
    (hL : y.length = some L)
    (hvp : ∀ v, y.virtual_position = some v → v ≤ L)
    (hs : y.virtual_position = none → ∀ s, y.start = some s → s ≤ L) :
    ∃ n y2, y.write buf = some (n, y2) ∧
      ∀ v, y2.virtual_position = some v → v ≤ L := by
  obtain ⟨ops, vp, st, len⟩ := y
  dsimp only at hL hvp hs
  subst hL
  cases vp with
  | some v =>
    have hv : v ≤ L := hvp v rfl
    simp only [Yadon.write]
    rw [if_neg (by omega : ¬ L < v)]
    refine ⟨_, _, rfl, ?_⟩
    dsimp only
    intro v2 h2
    rw [Option.some_inj] at h2
    subst h2
    split
    · rename_i hcond
      simp only [List.length_take]
      omega
    · rename_i hcond
      omega
  | none =>
    cases st with
    | some s =>
      have hv : s ≤ L := hs rfl s rfl
      simp only [Yadon.write]
      rw [if_neg (by omega : ¬ L < s)]
      refine ⟨_, _, rfl, ?_⟩
      dsimp only
      intro v2 h2
      rw [Option.some_inj] at h2
      subst h2
      split
      · rename_i hcond
        simp only [List.length_take]
        omega
      · rename_i hcond
        omega
    | none =>
      simp only [Yadon.write]
      refine ⟨_, _, rfl, ?_⟩
      dsimp only
      intro v2 h2
      rw [Option.some_inj] at h2
      subst h2
      split
      · rename_i hcond
        simp only [List.length_take]
        omega
      · rename_i hcond
        omega

/-- C3 witness: from the in-bounds state `Yadon.new (some 0) (some 16)`, a
3-byte write stays within the bound 16. -/
theorem c3_write_preserves_bound_witness :
    ∃ n y2, (Yadon.new (some 0) (some 16)).write [1, 2, 3] = some (n, y2) ∧
      ∀ v, y2.virtual_position = some v → v ≤ 16 :=
  c3_write_preserves_bound (Yadon.new (some 0) (some 16)) 16 [1, 2, 3] rfl
    (fun v h => by simp [Yadon.new] at h)
    (fun _ s h => by simp [Yadon.new] at h; omega)

/-- On a `u64` value below `2 ^ 63`, the cast to `i64` is the identity. -/
theorem toI64_of_lt (n : Nat) (h : n < 2 ^ 63) : toI64 n = n := by
  have h64 : n % 2 ^ 64 = n := Nat.mod_eq_of_lt (lt_trans h (by norm_num))
  unfold toI64
  rw [h64, if_pos h]

/-- On an `i64` value in `[0, 2 ^ 64)`, the cast to `u64` is `Int.toNat`. -/
theorem toU64_of_nonneg_lt (v : Int) (h0 : 0 ≤ v) (h1 : v < 2 ^ 64) :
    toU64 v = v.toNat := by
  unfold toU64
  rw [Int.emod_eq_of_lt h0 h1]

/-- C6 (amended): with `length = L` configured, `seek (End delta)` resolves
to and returns the simulated position `L + delta`, provided that sum is
non-negative (and the values are within the 64-bit signed range, as in the
Rust `u64`/`i64` types). For negative `L + delta` the code instead returns
the two's-complement wraparound — see the counterexample. -/
theorem c6_seek_from_end (y : Yadon) (L : Nat) (d : Int)
    (hL : y.length = some L) (hL63 : (L : Int) < 2 ^ 63)
    (h0 : 0 ≤ (L : Int) + d) (h63 : (L : Int) + d < 2 ^ 63) :
    ∃ n : Nat, (y.seek (SeekFrom.fromEnd d)).1 = some n ∧ (n : Int) = (L : Int) + d ∧
      (y.seek (SeekFrom.fromEnd d)).2.virtual_position = some n := by
  obtain ⟨ops, vp, st, len⟩ := y
  dsimp only at hL
  subst hL
  have hL63n : L < 2 ^ 63 := by exact_mod_cast hL63
  have htu : toU64 (toI64 L + d) = ((L : Int) + d).toNat := by
    rw [toI64_of_lt L hL63n]
    exact toU64_of_nonneg_lt _ h0 (lt_trans h63 (by norm_num))
  refine ⟨((L : Int) + d).toNat, ?_, Int.toNat_of_nonneg h0, ?_⟩
  · cases vp <;> cases st <;> simp [Yadon.seek, htu]
  · cases vp <;> cases st <;> simp [Yadon.seek, htu]

/-- C6 witness: with `length = 4`, `seek (End (-3))` returns position 1. -/
theorem c6_seek_from_end_witness :
    ∃ n : Nat, ((Yadon.new none (some 4)).seek (SeekFrom.fromEnd (-3))).1 = some n ∧
      (n : Int) = (4 : Int) + (-3) ∧
      ((Yadon.new none (some 4)).seek (SeekFrom.fromEnd (-3))).2.virtual_position = some n :=
  c6_seek_from_end (Yadon.new none (some 4)) 4 (-3) rfl (by norm_num) (by norm_num)
    (by norm_num)
